import Mathlib

/-!
Verification of the SSD1306 OLED driver (`oled96.c`).

The driver is shallowly embedded: the font table and the screen cache are
modelled as functions from indices to byte values (`Nat`, kept below 256 by
construction or by explicit `% 256` at every `unsigned char` read), the
global driver state (`file_i2c`, `iScreenOffset`, `ucScreen`, `ucFont`) is an
explicit record, and every `write()` on the bus is logged in a transcript
field.  Coordinates and screen offsets are C `int`s and are modelled as `Int`
(with `>>` on a possibly negative `int` modelled as the arithmetic shift gcc
implements, i.e. flooring division, and `& 7` as `emod 8`).
-/

/-! ### Font rotation (`RotateFont90`)

The C inner loop is `c >>= 1; if (s[x] & ucMask) c |= 0x80;` on an
`unsigned char c`, with `ucMask = 1 << y`. -/

/-- One iteration of the accumulation loop: shift the byte right and, when the
sampled bit is set, or in the top bit. -/
def rotStep (c : Nat) (b : Bool) : Nat :=
  if b then Nat.lor (c / 2) 128 else c / 2

/-- The byte computed for one value of `y` in the small-font loop:
`for (x=0;x<8;x++) { c >>= 1; if (s[x] & ucMask) c |= 0x80; }`. -/
def rotSmallByte (s : Nat → Nat) (y : Nat) : Nat :=
  (List.range 8).foldl (fun c x => rotStep c (Nat.testBit (s x % 256) y)) 0

/-- The in-place update performed for small glyph `i`:
`s = &ucFont[i*8]; ... ucTemp[7-y] = c; ... memcpy(s, ucTemp, 8)`.
Index `8*i + k` receives the byte computed at `y = 7 - k`. -/
def rotSmallWrite (f : Nat → Nat) (i : Nat) : Nat → Nat :=
  fun idx =>
    if 8 * i ≤ idx ∧ idx < 8 * i + 8 then
      rotSmallByte (fun x => f (8 * i + x)) (7 - (idx - 8 * i))
    else f idx

/-- The small-font pass: `for (i=0; i<256; i++) { ... }`. -/
def rotSmallPass (f : Nat → Nat) : Nat → Nat :=
  (List.range 256).foldl rotSmallWrite f

/-- The pair `(c, c2)` computed for one value of `y` in the large-font loop:
the two bytes accumulate simultaneously, `c` sampling `s[2x]` and `c2`
sampling `s[2x+1]`. -/
def rotLargePair (s : Nat → Nat) (y : Nat) : Nat × Nat :=
  (List.range 8).foldl
    (fun p x =>
      (rotStep p.1 (Nat.testBit (s (2 * x) % 256) y),
       rotStep p.2 (Nat.testBit (s (2 * x + 1) % 256) y)))
    (0, 0)

/-- The 64-byte `ucTemp` assembled for large glyph `i`: band `j = w / 16`
reads from `s = &ucFont[9728 + 12 + i*64 + j*16]` and stores `d[7-y] = c;
d[15-y] = c2;` with `d = &ucTemp[j*16]`. -/
def largeGlyphTemp (f : Nat → Nat) (i : Nat) (w : Nat) : Nat :=
  if w % 16 < 8 then
    (rotLargePair (fun k => f (9728 + 64 * i + 12 + 16 * (w / 16) + k)) (7 - w % 16)).1
  else
    (rotLargePair (fun k => f (9728 + 64 * i + 12 + 16 * (w / 16) + k)) (15 - w % 16)).2

/-- The in-place update performed for large glyph `i`:
`memcpy(&ucFont[9728 + i*64], ucTemp, 64)`. -/
def rotLargeWrite (f : Nat → Nat) (i : Nat) : Nat → Nat :=
  fun idx =>
    if 9728 + 64 * i ≤ idx ∧ idx < 9728 + 64 * i + 64 then
      largeGlyphTemp f i (idx - (9728 + 64 * i))
    else f idx

/-- The large-font pass: `for (i=0; i<128; i++) { ... }`. -/
def rotLargePass (f : Nat → Nat) : Nat → Nat :=
  (List.range 128).foldl rotLargeWrite f

/-- `RotateFont90`: the small 8x8 pass runs first, then the 16x32 pass. -/
def RotateFont90 (f : Nat → Nat) : Nat → Nat :=
  rotLargePass (rotSmallPass f)

/-- The absolute font-table offsets read by the large-font rotation for glyph
`i`, band `j`: `s[2x]` and `s[2x+1]` for `x` in `0..7` with
`s = &ucFont[9728 + 12 + i*64 + j*16]`. -/
def largeBandReadOffsets (i j : Nat) : List Nat :=
  (List.range 8).flatMap fun x =>
    [9728 + 64 * i + 12 + 16 * j + 2 * x, 9728 + 64 * i + 12 + 16 * j + (2 * x + 1)]

/-! ### Rotation lemmas -/

set_option maxRecDepth 4096 in
lemma rotStep_lt : ∀ c, c < 256 → ∀ b, rotStep c b < 256 := by
  have h : ∀ c < 256, rotStep c true < 256 ∧ rotStep c false < 256 := by decide
  intro c hc b
  cases b
  · exact (h c hc).2
  · exact (h c hc).1

set_option maxRecDepth 4096 in
lemma rotStep_hi : ∀ c, c < 256 → ∀ b, Nat.testBit (rotStep c b) 7 = b := by
  have h : ∀ c < 256,
      Nat.testBit (rotStep c true) 7 = true ∧ Nat.testBit (rotStep c false) 7 = false := by
    decide
  intro c hc b
  cases b
  · exact (h c hc).2
  · exact (h c hc).1

set_option maxRecDepth 8192 in
lemma rotStep_lo : ∀ c, c < 256 → ∀ b, ∀ k, k < 7 →
    Nat.testBit (rotStep c b) k = Nat.testBit c (k + 1) := by
  have h : ∀ c < 256, ∀ k < 7,
      Nat.testBit (rotStep c true) k = Nat.testBit c (k + 1) ∧
      Nat.testBit (rotStep c false) k = Nat.testBit c (k + 1) := by
    decide
  intro c hc b k hk
  cases b
  · exact (h c hc k hk).2
  · exact (h c hc k hk).1

/-- Bit `x` of the byte accumulated over the 8 samples is sample `x`:
the sample for input column `x` is shifted in at bit 7 and then moves down
`7 - x` places, ending at bit `x`. -/
lemma rotSmallByte_testBit (s : Nat → Nat) (y x : Nat) (hx : x < 8) :
    Nat.testBit (rotSmallByte s y) x = Nat.testBit (s x % 256) y := by
  have hunf : rotSmallByte s y =
      rotStep (rotStep (rotStep (rotStep (rotStep (rotStep (rotStep (rotStep 0
        (Nat.testBit (s 0 % 256) y)) (Nat.testBit (s 1 % 256) y))
        (Nat.testBit (s 2 % 256) y)) (Nat.testBit (s 3 % 256) y))
        (Nat.testBit (s 4 % 256) y)) (Nat.testBit (s 5 % 256) y))
        (Nat.testBit (s 6 % 256) y)) (Nat.testBit (s 7 % 256) y) := rfl
  have h0 : rotStep 0 (Nat.testBit (s 0 % 256) y) < 256 :=
    rotStep_lt 0 (by norm_num) _
  have h1 : rotStep (rotStep 0 (Nat.testBit (s 0 % 256) y))
      (Nat.testBit (s 1 % 256) y) < 256 := rotStep_lt _ h0 _
  have h2 := rotStep_lt _ h1 (Nat.testBit (s 2 % 256) y)
  have h3 := rotStep_lt _ h2 (Nat.testBit (s 3 % 256) y)
  have h4 := rotStep_lt _ h3 (Nat.testBit (s 4 % 256) y)
  have h5 := rotStep_lt _ h4 (Nat.testBit (s 5 % 256) y)
  have h6 := rotStep_lt _ h5 (Nat.testBit (s 6 % 256) y)
  rw [hunf]
  interval_cases x
  · rw [rotStep_lo _ h6 _ 0 (by norm_num), rotStep_lo _ h5 _ 1 (by norm_num),
      rotStep_lo _ h4 _ 2 (by norm_num), rotStep_lo _ h3 _ 3 (by norm_num),
      rotStep_lo _ h2 _ 4 (by norm_num), rotStep_lo _ h1 _ 5 (by norm_num),
      rotStep_lo _ h0 _ 6 (by norm_num), rotStep_hi 0 (by norm_num)]
  · rw [rotStep_lo _ h6 _ 1 (by norm_num), rotStep_lo _ h5 _ 2 (by norm_num),
      rotStep_lo _ h4 _ 3 (by norm_num), rotStep_lo _ h3 _ 4 (by norm_num),
      rotStep_lo _ h2 _ 5 (by norm_num), rotStep_lo _ h1 _ 6 (by norm_num),
      rotStep_hi _ h0]
  · rw [rotStep_lo _ h6 _ 2 (by norm_num), rotStep_lo _ h5 _ 3 (by norm_num),
      rotStep_lo _ h4 _ 4 (by norm_num), rotStep_lo _ h3 _ 5 (by norm_num),
      rotStep_lo _ h2 _ 6 (by norm_num), rotStep_hi _ h1]
  · rw [rotStep_lo _ h6 _ 3 (by norm_num), rotStep_lo _ h5 _ 4 (by norm_num),
      rotStep_lo _ h4 _ 5 (by norm_num), rotStep_lo _ h3 _ 6 (by norm_num),
      rotStep_hi _ h2]
  · rw [rotStep_lo _ h6 _ 4 (by norm_num), rotStep_lo _ h5 _ 5 (by norm_num),
      rotStep_lo _ h4 _ 6 (by norm_num), rotStep_hi _ h3]
  · rw [rotStep_lo _ h6 _ 5 (by norm_num), rotStep_lo _ h5 _ 6 (by norm_num),
      rotStep_hi _ h4]
  · rw [rotStep_lo _ h6 _ 6 (by norm_num), rotStep_hi _ h5]
  · rw [rotStep_hi _ h6]

lemma foldl_prod_split {α : Type} (F G : Nat → α → Nat) (l : List α) (a b : Nat) :
    l.foldl (fun p x => (F p.1 x, G p.2 x)) (a, b) = (l.foldl F a, l.foldl G b) := by
  induction l generalizing a b with
  | nil => rfl
  | cons hd tl ih => simpa using ih (F a hd) (G b hd)

/-- The joint accumulation of `(c, c2)` splits: `c` is the small-font
accumulation over the even-offset source bytes. -/
lemma rotLargePair_fst (s : Nat → Nat) (y : Nat) :
    (rotLargePair s y).1 = rotSmallByte (fun x => s (2 * x)) y := by
  exact congrArg Prod.fst (foldl_prod_split
    (fun c x => rotStep c (Nat.testBit (s (2 * x) % 256) y))
    (fun c x => rotStep c (Nat.testBit (s (2 * x + 1) % 256) y))
    (List.range 8) 0 0)

/-- ... and `c2` is the small-font accumulation over the odd-offset bytes. -/
lemma rotLargePair_snd (s : Nat → Nat) (y : Nat) :
    (rotLargePair s y).2 = rotSmallByte (fun x => s (2 * x + 1)) y := by
  exact congrArg Prod.snd (foldl_prod_split
    (fun c x => rotStep c (Nat.testBit (s (2 * x) % 256) y))
    (fun c x => rotStep c (Nat.testBit (s (2 * x + 1) % 256) y))
    (List.range 8) 0 0)

lemma rotSmallWrite_apply (f : Nat → Nat) (i idx : Nat) :
    rotSmallWrite f i idx =
      if 8 * i ≤ idx ∧ idx < 8 * i + 8 then
        rotSmallByte (fun x => f (8 * i + x)) (7 - (idx - 8 * i))
      else f idx := rfl

lemma rotLargeWrite_apply (f : Nat → Nat) (i idx : Nat) :
    rotLargeWrite f i idx =
      if 9728 + 64 * i ≤ idx ∧ idx < 9728 + 64 * i + 64 then
        largeGlyphTemp f i (idx - (9728 + 64 * i))
      else f idx := rfl

lemma largeGlyphTemp_congr (f g : Nat → Nat) (i w : Nat)
    (h : ∀ m, 9728 + 64 * i ≤ m → f m = g m) :
    largeGlyphTemp f i w = largeGlyphTemp g i w := by
  have hs : (fun k => f (9728 + 64 * i + 12 + 16 * (w / 16) + k))
      = (fun k => g (9728 + 64 * i + 12 + 16 * (w / 16) + k)) :=
    funext fun k => h _ (by omega)
  unfold largeGlyphTemp
  rw [hs]

/-- The small-font loop processes disjoint 8-byte windows, reading exactly the
window it overwrites, so after the first `n` glyphs the table is the glyphwise
rotation below `8 n` and untouched above. -/
lemma rotSmallPass_apply (f : Nat → Nat) :
    ∀ n, n ≤ 256 → ∀ idx, ((List.range n).foldl rotSmallWrite f) idx =
      if idx < 8 * n then rotSmallWrite f (idx / 8) idx else f idx := by
  intro n
  induction n with
  | zero => intro _ idx; simp
  | succ m ih =>
    intro hm idx
    have ihm := ih (by omega)
    rw [List.range_succ, List.foldl_append, List.foldl_cons, List.foldl_nil]
    have hfx : (fun x => (List.foldl rotSmallWrite f (List.range m)) (8 * m + x))
        = fun x => f (8 * m + x) := by
      funext x
      rw [ihm (8 * m + x), if_neg (by omega : ¬ (8 * m + x < 8 * m))]
    by_cases hwin : 8 * m ≤ idx ∧ idx < 8 * m + 8
    · have hdiv : idx / 8 = m := by omega
      have hL : rotSmallWrite (List.foldl rotSmallWrite f (List.range m)) m idx
          = rotSmallByte (fun x => f (8 * m + x)) (7 - (idx - 8 * m)) := by
        rw [rotSmallWrite_apply, if_pos hwin, hfx]
      have hR : (if idx < 8 * (m + 1) then rotSmallWrite f (idx / 8) idx else f idx)
          = rotSmallByte (fun x => f (8 * m + x)) (7 - (idx - 8 * m)) := by
        rw [if_pos (show idx < 8 * (m + 1) by omega), hdiv,
          rotSmallWrite_apply, if_pos hwin]
      rw [hL, hR]
    · have hL : rotSmallWrite (List.foldl rotSmallWrite f (List.range m)) m idx
          = (List.foldl rotSmallWrite f (List.range m)) idx := by
        rw [rotSmallWrite_apply, if_neg hwin]
      rw [hL, ihm idx]
      by_cases hlt : idx < 8 * m
      · rw [if_pos hlt, if_pos (by omega : idx < 8 * (m + 1))]
      · rw [if_neg hlt, if_neg (by omega : ¬ idx < 8 * (m + 1))]

lemma rotSmallPass_small (f : Nat → Nat) (idx : Nat) (h : idx < 2048) :
    rotSmallPass f idx
      = rotSmallByte (fun x => f (8 * (idx / 8) + x)) (7 - idx % 8) := by
  unfold rotSmallPass
  rw [rotSmallPass_apply f 256 (by omega) idx, if_pos (by omega : idx < 8 * 256),
    rotSmallWrite_apply, if_pos (by omega : 8 * (idx / 8) ≤ idx ∧ idx < 8 * (idx / 8) + 8)]
  have hm : idx - 8 * (idx / 8) = idx % 8 := by omega
  rw [hm]

lemma rotSmallPass_high (f : Nat → Nat) (idx : Nat) (h : 2048 ≤ idx) :
    rotSmallPass f idx = f idx := by
  unfold rotSmallPass
  rw [rotSmallPass_apply f 256 (by omega) idx, if_neg (by omega)]

/-- The large-font loop writes glyph `i`'s 64 bytes only after the band reads,
and every read for glyph `i` is at offset `≥ 9728 + 64 i + 12`, beyond every
byte written so far, so each glyph is assembled from the original table. -/
lemma rotLargePass_apply (g : Nat → Nat) :
    ∀ n, n ≤ 128 → ∀ idx, ((List.range n).foldl rotLargeWrite g) idx =
      if 9728 ≤ idx ∧ idx < 9728 + 64 * n then rotLargeWrite g ((idx - 9728) / 64) idx
      else g idx := by
  intro n
  induction n with
  | zero =>
    intro _ idx
    simp only [List.range_zero, List.foldl_nil]
    rw [if_neg (by omega)]
  | succ m ih =>
    intro hm idx
    have ihm := ih (by omega)
    rw [List.range_succ, List.foldl_append, List.foldl_cons, List.foldl_nil]
    by_cases hwin : 9728 + 64 * m ≤ idx ∧ idx < 9728 + 64 * m + 64
    · have hdiv : (idx - 9728) / 64 = m := by omega
      have hcong : largeGlyphTemp (List.foldl rotLargeWrite g (List.range m)) m
            (idx - (9728 + 64 * m))
          = largeGlyphTemp g m (idx - (9728 + 64 * m)) := by
        apply largeGlyphTemp_congr
        intro t ht
        rw [ihm t, if_neg (by omega)]
      have hL : rotLargeWrite (List.foldl rotLargeWrite g (List.range m)) m idx
          = largeGlyphTemp g m (idx - (9728 + 64 * m)) := by
        rw [rotLargeWrite_apply, if_pos hwin, hcong]
      have hR : (if 9728 ≤ idx ∧ idx < 9728 + 64 * (m + 1) then
            rotLargeWrite g ((idx - 9728) / 64) idx else g idx)
          = largeGlyphTemp g m (idx - (9728 + 64 * m)) := by
        rw [if_pos (by omega : 9728 ≤ idx ∧ idx < 9728 + 64 * (m + 1)), hdiv,
          rotLargeWrite_apply, if_pos hwin]
      rw [hL, hR]
    · have hL : rotLargeWrite (List.foldl rotLargeWrite g (List.range m)) m idx
          = (List.foldl rotLargeWrite g (List.range m)) idx := by
        rw [rotLargeWrite_apply, if_neg hwin]
      rw [hL, ihm idx]
      by_cases hlt : 9728 ≤ idx ∧ idx < 9728 + 64 * m
      · rw [if_pos hlt, if_pos (by omega : 9728 ≤ idx ∧ idx < 9728 + 64 * (m + 1))]
      · rw [if_neg hlt, if_neg (by omega : ¬ (9728 ≤ idx ∧ idx < 9728 + 64 * (m + 1)))]

lemma rotLargePass_in (g : Nat → Nat) (idx : Nat) (h1 : 9728 ≤ idx) (h2 : idx < 17920) :
    rotLargePass g idx = largeGlyphTemp g ((idx - 9728) / 64) ((idx - 9728) % 64) := by
  unfold rotLargePass
  rw [rotLargePass_apply g 128 (by omega) idx, if_pos (by omega),
    rotLargeWrite_apply]
  rw [if_pos (by omega :
    9728 + 64 * ((idx - 9728) / 64) ≤ idx ∧ idx < 9728 + 64 * ((idx - 9728) / 64) + 64)]
  have hm : idx - (9728 + 64 * ((idx - 9728) / 64)) = (idx - 9728) % 64 := by omega
  rw [hm]

lemma rotLargePass_out (g : Nat → Nat) (idx : Nat) (h : idx < 9728 ∨ 17920 ≤ idx) :
    rotLargePass g idx = g idx := by
  unfold rotLargePass
  rw [rotLargePass_apply g 128 (by omega) idx, if_neg (by omega)]

lemma RotateFont90_small (f : Nat → Nat) (idx : Nat) (h : idx < 2048) :
    RotateFont90 f idx = rotSmallByte (fun x => f (8 * (idx / 8) + x)) (7 - idx % 8) := by
  unfold RotateFont90
  rw [rotLargePass_out _ _ (Or.inl (by omega)), rotSmallPass_small f idx h]

lemma RotateFont90_large (f : Nat → Nat) (idx : Nat) (h1 : 9728 ≤ idx) (h2 : idx < 17920) :
    RotateFont90 f idx = largeGlyphTemp f ((idx - 9728) / 64) ((idx - 9728) % 64) := by
  unfold RotateFont90
  rw [rotLargePass_in _ _ h1 h2]
  apply largeGlyphTemp_congr
  intro t ht
  exact rotSmallPass_high f t (by omega)

lemma testBit_mod256 (v y : Nat) (hy : y < 8) :
    Nat.testBit (v % 256) y = Nat.testBit v y := by
  have h256 : (256 : Nat) = 2 ^ 8 := by norm_num
  rw [h256, Nat.testBit_mod_two_pow]
  simp [hy]

/-- A font table whose glyph 0 has row 0 equal to `0b00000001` and every
other byte zero. -/
def exGlyphFont : Nat → Nat := fun idx => if idx = 0 then 1 else 0

set_option maxRecDepth 100000 in
/-- C1, counterexample: on the glyph with row 0 = `0b00000001` and all other
rows 0, the rotated output byte at offset 7 is `0x01` — bit 0, not bit 7 as
the claim states. -/
theorem c1_counterexample :
    RotateFont90 exGlyphFont 7 = 1 ∧
    Nat.testBit (RotateFont90 exGlyphFont 7) 7 = false := by
  constructor
  · decide
  · decide

/-- C1 (amended): for every small glyph (8 input bytes, byte `x` holding row
`x`), the output byte stored at offset `7 - y` holds, at bit position `x`
(the sample is shifted in at bit 7 and then moves down to bit `x`), the value
of bit `y` of input byte `x`; on the example glyph the rotated output has
only the byte at offset 7 nonzero, with bit 0 set. -/
theorem c1_small_rotation (f : Nat → Nat) (i x y : Nat)
    (hi : i < 256) (hx : x < 8) (hy : y < 8) :
    Nat.testBit (RotateFont90 f (8 * i + (7 - y))) x = Nat.testBit (f (8 * i + x)) y := by
  have h1 : 8 * i + (7 - y) < 2048 := by omega
  rw [RotateFont90_small f _ h1]
  have hdiv : (8 * i + (7 - y)) / 8 = i := by omega
  have hmod : (8 * i + (7 - y)) % 8 = 7 - y := by omega
  rw [hdiv, hmod, (by omega : 7 - (7 - y) = y), rotSmallByte_testBit _ _ _ hx]
  show Nat.testBit (f (8 * i + x) % 256) y = Nat.testBit (f (8 * i + x)) y
  exact testBit_mod256 _ _ hy

theorem c1_small_rotation_witness :
    Nat.testBit (RotateFont90 exGlyphFont (8 * 0 + (7 - 0))) 0
      = Nat.testBit (exGlyphFont (8 * 0 + 0)) 0 :=
  c1_small_rotation exGlyphFont 0 0 0 (by norm_num) (by norm_num) (by norm_num)

/-- C3: for every large glyph `i` and band `j`, the byte the rotation stores
at offset `16 j + (7 - y)` of the glyph samples bit `y` of the even-offset
source bytes `s[2x]` of the band's 12-byte-offset source window, and the byte
at `16 j + (15 - y)` samples the odd-offset bytes `s[2x+1]`, accumulating
exactly as the small-font loop does (sample `x` lands at bit `x`). -/
theorem c3_large_rotation (f : Nat → Nat) (i j x y : Nat)
    (hi : i < 128) (hj : j < 4) (hx : x < 8) (hy : y < 8) :
    Nat.testBit (RotateFont90 f (9728 + 64 * i + 16 * j + (7 - y))) x
      = Nat.testBit (f (9728 + 64 * i + 12 + 16 * j + 2 * x)) y
  ∧ Nat.testBit (RotateFont90 f (9728 + 64 * i + 16 * j + (15 - y))) x
      = Nat.testBit (f (9728 + 64 * i + 12 + 16 * j + (2 * x + 1))) y := by
  constructor
  · have h1 : 9728 ≤ 9728 + 64 * i + 16 * j + (7 - y) := by omega
    have h2 : 9728 + 64 * i + 16 * j + (7 - y) < 17920 := by omega
    rw [RotateFont90_large f _ h1 h2]
    have hdiv : (9728 + 64 * i + 16 * j + (7 - y) - 9728) / 64 = i := by omega
    have hmod : (9728 + 64 * i + 16 * j + (7 - y) - 9728) % 64 = 16 * j + (7 - y) := by
      omega
    rw [hdiv, hmod]
    unfold largeGlyphTemp
    rw [(by omega : (16 * j + (7 - y)) % 16 = 7 - y),
      (by omega : (16 * j + (7 - y)) / 16 = j),
      if_pos (by omega : 7 - y < 8), (by omega : 7 - (7 - y) = y),
      rotLargePair_fst, rotSmallByte_testBit _ _ _ hx]
    show Nat.testBit (f (9728 + 64 * i + 12 + 16 * j + 2 * x) % 256) y = _
    exact testBit_mod256 _ _ hy
  · have h1 : 9728 ≤ 9728 + 64 * i + 16 * j + (15 - y) := by omega
    have h2 : 9728 + 64 * i + 16 * j + (15 - y) < 17920 := by omega
    rw [RotateFont90_large f _ h1 h2]
    have hdiv : (9728 + 64 * i + 16 * j + (15 - y) - 9728) / 64 = i := by omega
    have hmod : (9728 + 64 * i + 16 * j + (15 - y) - 9728) % 64 = 16 * j + (15 - y) := by
      omega
    rw [hdiv, hmod]
    unfold largeGlyphTemp
    rw [(by omega : (16 * j + (15 - y)) % 16 = 15 - y),
      (by omega : (16 * j + (15 - y)) / 16 = j),
      if_neg (by omega : ¬ (15 - y < 8)), (by omega : 15 - (15 - y) = y),
      rotLargePair_snd, rotSmallByte_testBit _ _ _ hx]
    show Nat.testBit (f (9728 + 64 * i + 12 + 16 * j + (2 * x + 1)) % 256) y = _
    exact testBit_mod256 _ _ hy

theorem c3_large_rotation_witness :
    (Nat.testBit (RotateFont90 exGlyphFont (9728 + 64 * 0 + 16 * 0 + (7 - 0))) 0
      = Nat.testBit (exGlyphFont (9728 + 64 * 0 + 12 + 16 * 0 + 2 * 0)) 0)
  ∧ (Nat.testBit (RotateFont90 exGlyphFont (9728 + 64 * 0 + 16 * 0 + (15 - 0))) 0
      = Nat.testBit (exGlyphFont (9728 + 64 * 0 + 12 + 16 * 0 + (2 * 0 + 1))) 0) :=
  c3_large_rotation exGlyphFont 0 0 0 0 (by norm_num) (by norm_num) (by norm_num)
    (by norm_num)

/-- C8, counterexample: in band 3, the last odd-offset read of glyph 127 is
at table offset `9728 + 64*127 + 75`, outside the glyph's own 64-byte block
and outside the 8192-byte large-font region ending at 17920. -/
theorem c8_counterexample :
    (9728 + 64 * 127 + 12 + 16 * 3 + (2 * 7 + 1)) ∈ largeBandReadOffsets 127 3 ∧
    ¬ (9728 + 64 * 127 + 12 + 16 * 3 + (2 * 7 + 1) ≤ 9728 + 64 * 127 + 63) ∧
    ¬ (9728 + 64 * 127 + 12 + 16 * 3 + (2 * 7 + 1) < 17920) := by
  refine ⟨by decide, by norm_num, by norm_num⟩

/-- C8 (amended): every source byte read by the large-font rotation for glyph
`i`, band `j` lies in the 16-byte window starting 12 + 16 j bytes into the
glyph; for bands 0..2 that window is inside the glyph's own 64-byte block,
but band 3's window runs 12 bytes past it (offsets 60..75 of the glyph), and
only for glyphs 0..126 do those reads stay inside the 8192-byte large-font
region. -/
theorem c8_read_window (i j o : Nat) (hi : i < 128) (hj : j < 4)
    (ho : o ∈ largeBandReadOffsets i j) :
    9728 + 64 * i + 12 + 16 * j ≤ o ∧ o ≤ 9728 + 64 * i + 12 + 16 * j + 15 ∧
    (j < 3 → o ≤ 9728 + 64 * i + 63) ∧ (i < 127 → o < 17920) := by
  simp only [largeBandReadOffsets, List.mem_flatMap, List.mem_range, List.mem_cons,
    List.mem_singleton, List.not_mem_nil, or_false] at ho
  obtain ⟨x, hx, ho⟩ := ho
  rcases ho with rfl | rfl
  · omega
  · omega

theorem c8_read_window_witness :
    9728 + 64 * 0 + 12 + 16 * 0 ≤ 9728 + 64 * 0 + 12 + 16 * 0 + 2 * 0 ∧
    9728 + 64 * 0 + 12 + 16 * 0 + 2 * 0 ≤ 9728 + 64 * 0 + 12 + 16 * 0 + 15 ∧
    (0 < 3 → 9728 + 64 * 0 + 12 + 16 * 0 + 2 * 0 ≤ 9728 + 64 * 0 + 63) ∧
    (0 < 127 → 9728 + 64 * 0 + 12 + 16 * 0 + 2 * 0 < 17920) :=
  c8_read_window 0 0 (9728 + 64 * 0 + 12 + 16 * 0 + 2 * 0) (by norm_num) (by norm_num)
    (by decide)

/-! ### Driver state

`file_i2c` is modelled by whether the handle is nonzero; `tx` logs the byte
sequence of every `write()` call on the bus; `cacheWrites` logs the cache
index of every byte mirrored into `ucScreen` by `oledWriteDataBlock` (ghost
instrumentation of the `memcpy(&ucScreen[iScreenOffset], ...)`). -/

structure OledState where
  file_i2c : Bool
  iScreenOffset : Int
  ucScreen : Int → Nat
  ucFont : Nat → Nat
  tx : List (List Nat)
  cacheWrites : List Int

/-- Conversion of a C `int` to the `unsigned char` actually put in the bus
buffer. -/
def cByte (v : Int) : Nat := (v % 256).toNat

def busWrite (st : OledState) (msg : List Nat) : OledState :=
  { st with tx := st.tx ++ [msg] }

/-- `oledWriteCommand`: `buf[0] = 0x00; buf[1] = c; write(file_i2c, buf, 2);`
(the argument is truncated to `unsigned char` at the call boundary). -/
def oledWriteCommand (st : OledState) (c : Int) : OledState :=
  busWrite st [0, cByte c]

/-- `oledSetPosition`: page command `0xb0 | y`, low column nibble
`0x00 | (x & 0xf)`, high column nibble `0x10 | ((x >> 4) & 0xf)`, then
`iScreenOffset = (y*128)+x`. -/
def oledSetPosition (st : OledState) (x y : Int) : OledState :=
  let st1 := oledWriteCommand st (Int.lor 176 y)
  let st2 := oledWriteCommand st1 (Int.lor 0 (Int.land x 15))
  let st3 := oledWriteCommand st2 (Int.lor 16 (Int.land (x >>> (4 : Int)) 15))
  { st3 with iScreenOffset := y * 128 + x }

/-- `memcpy(&ucScreen[off], buf, len)` on the function model of the cache. -/
def writeBytes (scr : Int → Nat) (off : Int) : List Nat → (Int → Nat)
  | [] => scr
  | b :: rest => writeBytes (fun t => if t = off then b else scr t) (off + 1) rest

/-- `oledWriteDataBlock`: transmit `0x40` followed by the payload, mirror the
payload into the cache at `iScreenOffset`, advance `iScreenOffset`. -/
def oledWriteDataBlock (st : OledState) (buf : List Nat) : OledState :=
  let st1 := busWrite st (64 :: buf)
  { st1 with
    ucScreen := writeBytes st1.ucScreen st1.iScreenOffset buf,
    cacheWrites :=
      st1.cacheWrites
        ++ (List.range buf.length).map (fun k : Nat => st1.iScreenOffset + (k : Int)),
    iScreenOffset := st1.iScreenOffset + (buf.length : Int) }

/-- Reading `len` `unsigned char`s starting at `&ucFont[base]`. -/
def fontBytes (st : OledState) (base len : Nat) : List Nat :=
  (List.range len).map fun k => st.ucFont (base + k) % 256

/-- The byte recomputation of `oledSetPixel`:
`uc &= ~(1 << k)` clears bit `k` of the byte (an and with `255 - 2^k`),
then `if (ucColor) uc |= (1 << k)` sets it again. -/
def pixelNewByte (old k c : Nat) : Nat :=
  if c % 256 ≠ 0 then Nat.lor (Nat.land old (255 - 2 ^ k)) (2 ^ k)
  else Nat.land old (255 - 2 ^ k)

/-- `oledSetPixel`.  `y >> 3` is gcc's arithmetic shift, i.e. flooring
division; `y & 7` is `y emod 8`; the index `i` is `(y >> 3) * 128 + x` and
the write happens only when the recomputed byte differs from the cache. -/
def oledSetPixel (st : OledState) (x y : Int) (ucColor : Nat) : OledState × Int :=
  if st.file_i2c = false then (st, -1)
  else if Int.fdiv y 8 * 128 + x < 0 ∨ Int.fdiv y 8 * 128 + x > 1023 then (st, -1)
  else if pixelNewByte (st.ucScreen (Int.fdiv y 8 * 128 + x)) (y % 8).toNat ucColor
        ≠ st.ucScreen (Int.fdiv y 8 * 128 + x) then
    (oledWriteDataBlock (oledSetPosition st x (Int.fdiv y 8))
      [pixelNewByte (st.ucScreen (Int.fdiv y 8 * 128 + x)) (y % 8).toNat ucColor], 0)
  else (st, 0)

/-- The loop body of `oledWriteString` for one small glyph: one 8-byte block
from `&ucFont[(unsigned char)szMsg[i] * 8]`, no repositioning. -/
def smallChar (msg : List Nat) (s : OledState) (i : Nat) : OledState :=
  oledWriteDataBlock s (fontBytes s ((msg.getD i 0 % 256) * 8) 8)

/-- The loop body for one large glyph (`x` here is the already-multiplied
pixel column `x*16` of the call): three 16-byte blocks from
`s = &ucFont[9728 + (unsigned char)szMsg[i]*64]` at pages `y`, `y+1`, `y+2`,
each preceded by an `oledSetPosition`. -/
def largeChar (x y : Int) (msg : List Nat) (s : OledState) (i : Nat) : OledState :=
  let base : Nat := 9728 + (msg.getD i 0 % 256) * 64
  let s1 := oledWriteDataBlock (oledSetPosition s (x + 16 * (i : Int)) y)
    (fontBytes s base 16)
  let s2 := oledWriteDataBlock (oledSetPosition s1 (x + 16 * (i : Int)) (y + 1))
    (fontBytes s1 (base + 16) 16)
  oledWriteDataBlock (oledSetPosition s2 (x + 16 * (i : Int)) (y + 2))
    (fontBytes s2 (base + 32) 16)

/-- `if (iLen+x > cap) iLen = cap-x;` — the per-row truncation of the text
length. -/
def clampLen (cap len x : Int) : Int := if len + x > cap then cap - x else len

/-- `oledWriteString`.  The message is the byte string `szMsg` (NUL-free, so
`strlen` is its length).  The small-font branch positions the cursor before
clamping the length (so the returned state carries the positioning effects
even on the length-error path); the large-font branch clamps first,
multiplies `x` by 16, and repositions for every page of every glyph. -/
def oledWriteString (st : OledState) (x y : Int) (msg : List Nat) (bLarge : Bool) :
    OledState × Int :=
  if st.file_i2c = false then (st, -1)
  else if bLarge then
    if clampLen 8 (msg.length : Int) x < 0 then (st, -1)
    else (((List.range (clampLen 8 (msg.length : Int) x).toNat).foldl
      (largeChar (x * 16) y msg) st), 0)
  else
    if clampLen 16 (msg.length : Int) x < 0 then (oledSetPosition st x y, -1)
    else (((List.range (clampLen 16 (msg.length : Int) x).toNat).foldl
      (smallChar msg) (oledSetPosition st x y)), 0)

/-- The loop body of `oledFill` for one page: position to column 0 of the
page and write the 128-byte `memset` buffer. -/
def fillStep (v : Nat) (s : OledState) (y : Nat) : OledState :=
  oledWriteDataBlock (oledSetPosition s 0 (y : Int)) (List.replicate 128 (v % 256))

/-- `oledFill`: for each of the 8 pages, position to column 0 and write 128
copies of the data byte. -/
def oledFill (st : OledState) (ucData : Nat) : OledState × Int :=
  if st.file_i2c = false then (st, -1)
  else (((List.range 8).foldl (fillStep ucData) st), 0)

/-- The initialization burst of `oledInit`: the `0x00` command introducer
followed by the 23 opcode bytes, sent as one `write()`. -/
def initbuf : List Nat :=
  [0x00, 0xae, 0xa8, 0x3f, 0xd3, 0x00, 0x40, 0xa0, 0xa1, 0xc0, 0xc8,
   0xda, 0x12, 0x81, 0xff, 0xa4, 0xa6, 0xd5, 0x80, 0x8d, 0x14,
   0xaf, 0x20, 0x02]

/-- Process-start state: the statics `iScreenOffset`, `ucScreen`, `file_i2c`
are zero-initialized, `ucFont` holds the unrotated external font. -/
def startState (font : Nat → Nat) : OledState :=
  { file_i2c := false, iScreenOffset := 0, ucScreen := fun _ => 0,
    ucFont := font, tx := [], cacheWrites := [] }

/-- `oledInit`: the outcome of `open()` and of `ioctl(I2C_SLAVE)` are the
external parameters `openOk` and `claimOk`.  On failure `file_i2c` is reset
to the zero sentinel and nothing is transmitted; on success the init burst
is sent as a single transmission and `RotateFont90` runs once. -/
def oledInit (openOk claimOk : Bool) (font : Nat → Nat) : OledState × Int :=
  if openOk = false then (startState font, -1)
  else if claimOk = false then (startState font, -1)
  else
    (busWrite { startState font with file_i2c := true, ucFont := RotateFont90 font }
      initbuf, 0)

/-- A concrete initialized state (all-zero screen and font) used to evaluate
the theorems on explicit inputs. -/
def exReady : OledState :=
  { file_i2c := true, iScreenOffset := 0, ucScreen := fun _ => 0,
    ucFont := fun _ => 0, tx := [], cacheWrites := [] }

/-! ### State-operation lemmas -/

lemma oledSetPosition_file (st : OledState) (x y : Int) :
    (oledSetPosition st x y).file_i2c = st.file_i2c := rfl

lemma oledSetPosition_offset (st : OledState) (x y : Int) :
    (oledSetPosition st x y).iScreenOffset = y * 128 + x := rfl

lemma oledSetPosition_screen (st : OledState) (x y : Int) :
    (oledSetPosition st x y).ucScreen = st.ucScreen := rfl

lemma oledSetPosition_font (st : OledState) (x y : Int) :
    (oledSetPosition st x y).ucFont = st.ucFont := rfl

lemma oledSetPosition_cw (st : OledState) (x y : Int) :
    (oledSetPosition st x y).cacheWrites = st.cacheWrites := rfl

/-- The three command transmissions of `oledSetPosition`. -/
def posMsgs (x y : Int) : List (List Nat) :=
  [[0, cByte (Int.lor 176 y)], [0, cByte (Int.lor 0 (Int.land x 15))],
   [0, cByte (Int.lor 16 (Int.land (x >>> (4 : Int)) 15))]]

lemma oledSetPosition_tx (st : OledState) (x y : Int) :
    (oledSetPosition st x y).tx = st.tx ++ posMsgs x y := by
  simp [oledSetPosition, oledWriteCommand, busWrite, posMsgs]

lemma oledWriteDataBlock_file (st : OledState) (buf : List Nat) :
    (oledWriteDataBlock st buf).file_i2c = st.file_i2c := rfl

lemma oledWriteDataBlock_font (st : OledState) (buf : List Nat) :
    (oledWriteDataBlock st buf).ucFont = st.ucFont := rfl

lemma oledWriteDataBlock_tx (st : OledState) (buf : List Nat) :
    (oledWriteDataBlock st buf).tx = st.tx ++ [64 :: buf] := rfl

lemma oledWriteDataBlock_offset (st : OledState) (buf : List Nat) :
    (oledWriteDataBlock st buf).iScreenOffset = st.iScreenOffset + (buf.length : Int) := rfl

lemma oledWriteDataBlock_screen (st : OledState) (buf : List Nat) :
    (oledWriteDataBlock st buf).ucScreen = writeBytes st.ucScreen st.iScreenOffset buf := rfl

lemma oledWriteDataBlock_cw (st : OledState) (buf : List Nat) :
    (oledWriteDataBlock st buf).cacheWrites =
      st.cacheWrites
        ++ (List.range buf.length).map (fun k : Nat => st.iScreenOffset + (k : Int)) :=
  rfl

lemma writeBytes_singleton (scr : Int → Nat) (off : Int) (b : Nat) :
    writeBytes scr off [b] = fun t => if t = off then b else scr t := rfl

lemma writeBytes_replicate (n : Nat) (v : Nat) :
    ∀ (scr : Int → Nat) (off : Int) (t : Int),
      writeBytes scr off (List.replicate n v) t =
        if off ≤ t ∧ t < off + (n : Int) then v else scr t := by
  induction n with
  | zero =>
    intro scr off t
    rw [List.replicate_zero]
    show scr t = _
    rw [if_neg (by omega)]
  | succ m ih =>
    intro scr off t
    rw [List.replicate_succ]
    show writeBytes (fun u => if u = off then v else scr u) (off + 1) (List.replicate m v) t = _
    rw [ih]
    by_cases hwin : off + 1 ≤ t ∧ t < off + 1 + (m : Int)
    · rw [if_pos hwin, if_pos (by push_cast; omega)]
    · rw [if_neg hwin]
      by_cases ht : t = off
      · rw [if_pos ht, if_pos (by push_cast; omega)]
      · rw [if_neg ht, if_neg (by push_cast at hwin ⊢; omega)]

lemma fontBytes_length (st : OledState) (base len : Nat) :
    (fontBytes st base len).length = len := by
  simp [fontBytes]

/-- C7: on a successful open and claim, `oledInit` sends the 24-byte burst
(`0x00` introducer followed by the 23 opcodes, in order) as a single
transmission, rotates the font exactly once and returns 0; when the open or
the claim fails it returns -1, transmits nothing and leaves `file_i2c` at
the zero sentinel. -/
theorem c7_init (openOk claimOk : Bool) (font : Nat → Nat) :
    (openOk = true → claimOk = true →
      (oledInit openOk claimOk font).2 = 0
      ∧ (oledInit openOk claimOk font).1.tx = [initbuf]
      ∧ initbuf = 0 :: [0xae, 0xa8, 0x3f, 0xd3, 0x00, 0x40, 0xa0, 0xa1, 0xc0, 0xc8,
          0xda, 0x12, 0x81, 0xff, 0xa4, 0xa6, 0xd5, 0x80, 0x8d, 0x14, 0xaf, 0x20, 0x02]
      ∧ (oledInit openOk claimOk font).1.ucFont = RotateFont90 font
      ∧ (oledInit openOk claimOk font).1.file_i2c = true)
  ∧ (openOk = false ∨ claimOk = false →
      (oledInit openOk claimOk font).2 = -1
      ∧ (oledInit openOk claimOk font).1.tx = []
      ∧ (oledInit openOk claimOk font).1.file_i2c = false) := by
  cases openOk <;> cases claimOk
  · exact ⟨fun h1 _ => Bool.noConfusion h1, fun _ => ⟨rfl, rfl, rfl⟩⟩
  · exact ⟨fun h1 _ => Bool.noConfusion h1, fun _ => ⟨rfl, rfl, rfl⟩⟩
  · exact ⟨fun _ h2 => Bool.noConfusion h2, fun _ => ⟨rfl, rfl, rfl⟩⟩
  · exact ⟨fun _ _ => ⟨rfl, rfl, rfl, rfl, rfl⟩,
      fun h => by rcases h with h | h <;> exact Bool.noConfusion h⟩

theorem c7_init_witness :
    ((oledInit true true exGlyphFont).2 = 0
      ∧ (oledInit true true exGlyphFont).1.tx = [initbuf]
      ∧ initbuf = 0 :: [0xae, 0xa8, 0x3f, 0xd3, 0x00, 0x40, 0xa0, 0xa1, 0xc0, 0xc8,
          0xda, 0x12, 0x81, 0xff, 0xa4, 0xa6, 0xd5, 0x80, 0x8d, 0x14, 0xaf, 0x20, 0x02]
      ∧ (oledInit true true exGlyphFont).1.ucFont = RotateFont90 exGlyphFont
      ∧ (oledInit true true exGlyphFont).1.file_i2c = true)
  ∧ ((oledInit false true exGlyphFont).2 = -1
      ∧ (oledInit false true exGlyphFont).1.tx = []
      ∧ (oledInit false true exGlyphFont).1.file_i2c = false) :=
  ⟨(c7_init true true exGlyphFont).1 rfl rfl,
   (c7_init false true exGlyphFont).2 (Or.inl rfl)⟩

/-- C2: the bounds check of `oledSetPixel` is `i < 0 || i > 1023` on
`i = (y >> 3)*128 + x` only.  At the out-of-range pixel (x, y) = (128, 0)
the index is 128, inside [0, 1023], so the freshly initialized driver
returns success, transmits a positioning burst plus a data byte, and
corrupts cache byte 128 (page 1, column 0) instead of failing. -/
theorem c2_oob_eval :
    (oledSetPixel (oledInit true true exGlyphFont).1 128 0 1).2 = 0
  ∧ (oledSetPixel (oledInit true true exGlyphFont).1 128 0 1).1.tx
      = (oledInit true true exGlyphFont).1.tx ++ [[0, 176], [0, 0], [0, 24], [64, 1]]
  ∧ (oledSetPixel (oledInit true true exGlyphFont).1 128 0 1).1.ucScreen 128 = 1 := by
  refine ⟨by decide, by decide, by decide⟩

/-- C10: starting from any initialized state, a small-font `oledWriteString`
whose clamp is negative (`x ≥ 17` forces it) fails only after transmitting
the three cursor-positioning commands and setting `iScreenOffset` to
`y*128 + x`, while the large-font path fails before any positioning or
transmission, returning the state unchanged. -/
theorem c10_failure_path (st : OledState) (x y : Int) (msg : List Nat)
    (hf : st.file_i2c = true) (hx : 17 ≤ x) :
    oledWriteString st x y msg false = (oledSetPosition st x y, -1)
  ∧ (oledWriteString st x y msg false).1.iScreenOffset = y * 128 + x
  ∧ (oledWriteString st x y msg false).1.tx = st.tx ++ posMsgs x y
  ∧ (oledWriteString st x y msg false).1.ucScreen = st.ucScreen
  ∧ oledWriteString st x y msg true = (st, -1) := by
  have hb : ¬ (st.file_i2c = false) := by
    rw [hf]
    exact fun h => Bool.noConfusion h
  have hclampS : clampLen 16 (msg.length : Int) x = 16 - x := by
    unfold clampLen
    rw [if_pos (by omega)]
  have hclampL : clampLen 8 (msg.length : Int) x = 8 - x := by
    unfold clampLen
    rw [if_pos (by omega)]
  have hsmall : oledWriteString st x y msg false = (oledSetPosition st x y, -1) := by
    unfold oledWriteString
    rw [if_neg hb, if_neg (fun h => Bool.noConfusion h), hclampS,
      if_pos (by omega : (16 : Int) - x < 0)]
  have hlarge : oledWriteString st x y msg true = (st, -1) := by
    unfold oledWriteString
    rw [if_neg hb, if_pos rfl, hclampL, if_pos (by omega : (8 : Int) - x < 0)]
  refine ⟨hsmall, ?_, ?_, ?_, hlarge⟩
  · rw [hsmall]
    exact oledSetPosition_offset st x y
  · rw [hsmall]
    exact oledSetPosition_tx st x y
  · rw [hsmall]
    exact oledSetPosition_screen st x y

theorem c10_failure_path_witness :
    (oledWriteString exReady 17 0 [65] false = (oledSetPosition exReady 17 0, -1))
  ∧ ((oledWriteString exReady 17 0 [65] false).1.iScreenOffset = 0 * 128 + 17)
  ∧ ((oledWriteString exReady 17 0 [65] false).1.tx = exReady.tx ++ posMsgs 17 0)
  ∧ ((oledWriteString exReady 17 0 [65] false).1.ucScreen = exReady.ucScreen)
  ∧ (oledWriteString exReady 17 0 [65] true = (exReady, -1)) :=
  c10_failure_path exReady 17 0 [65] rfl (by norm_num)

/-! ### Pixel byte lemmas -/

set_option maxRecDepth 100000 in
lemma pixelNewByte_facts : ∀ b < 256, ∀ k < 8,
    pixelNewByte b k 1 < 256 ∧ pixelNewByte b k 0 < 256 ∧
    (Nat.testBit b k = true → pixelNewByte b k 1 = b) ∧
    (Nat.testBit b k = false → pixelNewByte b k 0 = b) ∧
    Nat.testBit (pixelNewByte b k 1) k = true ∧
    Nat.testBit (pixelNewByte b k 0) k = false := by decide

lemma pixelNewByte_cases (b k c : Nat) :
    pixelNewByte b k c = if c % 256 ≠ 0 then pixelNewByte b k 1 else pixelNewByte b k 0 := by
  unfold pixelNewByte
  by_cases h : c % 256 ≠ 0
  · rw [if_pos h, if_pos h, if_pos (by norm_num : (1 : Nat) % 256 ≠ 0)]
  · rw [if_neg h, if_neg h, if_neg (by norm_num : ¬ ((0 : Nat) % 256 ≠ 0))]

lemma pixelNewByte_lt (b k c : Nat) (hb : b < 256) (hk : k < 8) :
    pixelNewByte b k c < 256 := by
  rw [pixelNewByte_cases]
  by_cases h : c % 256 ≠ 0
  · rw [if_pos h]
    exact (pixelNewByte_facts b hb k hk).1
  · rw [if_neg h]
    exact (pixelNewByte_facts b hb k hk).2.1

/-- When the requested color already matches the cached bit, the recomputed
byte is the cached byte. -/
lemma pixelNewByte_match (b k c : Nat) (hb : b < 256) (hk : k < 8)
    (hm : Nat.testBit b k = decide (c % 256 ≠ 0)) : pixelNewByte b k c = b := by
  rw [pixelNewByte_cases]
  by_cases h : c % 256 ≠ 0
  · rw [if_pos h]
    exact (pixelNewByte_facts b hb k hk).2.2.1 (by rw [hm]; exact decide_eq_true h)
  · rw [if_neg h]
    exact (pixelNewByte_facts b hb k hk).2.2.2.1 (by rw [hm]; exact decide_eq_false h)

lemma pixelNewByte_testBit (b k c : Nat) (hb : b < 256) (hk : k < 8) :
    Nat.testBit (pixelNewByte b k c) k = decide (c % 256 ≠ 0) := by
  rw [pixelNewByte_cases]
  by_cases h : c % 256 ≠ 0
  · rw [if_pos h, (pixelNewByte_facts b hb k hk).2.2.2.2.1]
    exact (decide_eq_true h).symm
  · rw [if_neg h, (pixelNewByte_facts b hb k hk).2.2.2.2.2]
    exact (decide_eq_false h).symm

/-- The initialized, in-range path of `oledSetPixel`. -/
lemma oledSetPixel_eq (st : OledState) (x y : Int) (c : Nat)
    (hf : st.file_i2c = true)
    (hin : ¬ (Int.fdiv y 8 * 128 + x < 0 ∨ Int.fdiv y 8 * 128 + x > 1023)) :
    oledSetPixel st x y c =
      if pixelNewByte (st.ucScreen (Int.fdiv y 8 * 128 + x)) (y % 8).toNat c
          ≠ st.ucScreen (Int.fdiv y 8 * 128 + x) then
        (oledWriteDataBlock (oledSetPosition st x (Int.fdiv y 8))
          [pixelNewByte (st.ucScreen (Int.fdiv y 8 * 128 + x)) (y % 8).toNat c], 0)
      else (st, 0) := by
  unfold oledSetPixel
  rw [if_neg (by rw [hf]; exact fun h => Bool.noConfusion h), if_neg hin]

/-- C4, counterexample: from the freshly initialized driver, two successive
`oledSetPixel(0, 0, 0)` calls both match the (all-zero) cache, so the pair of
calls issues zero bus writes, not exactly one. -/
theorem c4_counterexample :
    (oledSetPixel (oledInit true true exGlyphFont).1 0 0 0).2 = 0
  ∧ (oledSetPixel ((oledSetPixel (oledInit true true exGlyphFont).1 0 0 0).1) 0 0 0).2 = 0
  ∧ ((oledSetPixel ((oledSetPixel (oledInit true true exGlyphFont).1 0 0 0).1) 0 0 0).1).tx
      = (oledInit true true exGlyphFont).1.tx := by
  refine ⟨by decide, by decide, by decide⟩

/-- C4 (amended): after successful initialization, for every in-range
`(x, y, color)` with a byte-valued cache entry, a call whose requested color
matches the cached bit returns success with the state (hence the transcript)
unchanged, and whatever the first of two identical calls does, the second is
a no-op against the cache: it returns success and leaves the state (hence
the bus transcript) unchanged, so the pair issues at most one data write. -/
theorem c4_noop_idempotence (st : OledState) (x y : Int) (c : Nat)
    (hf : st.file_i2c = true)
    (hx0 : 0 ≤ x) (hx1 : x ≤ 127) (hy0 : 0 ≤ y) (hy1 : y ≤ 63)
    (hbyte : st.ucScreen (Int.fdiv y 8 * 128 + x) < 256) :
    (Nat.testBit (st.ucScreen (Int.fdiv y 8 * 128 + x)) (y % 8).toNat
        = decide (c % 256 ≠ 0) → oledSetPixel st x y c = (st, 0))
  ∧ oledSetPixel (oledSetPixel st x y c).1 x y c = ((oledSetPixel st x y c).1, 0) := by
  have hfd : Int.fdiv y 8 = y / 8 := Int.fdiv_eq_ediv y (by norm_num)
  have hin : ¬ (Int.fdiv y 8 * 128 + x < 0 ∨ Int.fdiv y 8 * 128 + x > 1023) := by
    rw [hfd]
    omega
  have hk : (y % 8).toNat < 8 := by omega
  have heq := oledSetPixel_eq st x y c hf hin
  constructor
  · intro hmatch
    rw [heq, if_neg (fun hne => hne (pixelNewByte_match _ _ _ hbyte hk hmatch))]
  · by_cases hch : pixelNewByte (st.ucScreen (Int.fdiv y 8 * 128 + x)) (y % 8).toNat c
        = st.ucScreen (Int.fdiv y 8 * 128 + x)
    · have h1 : oledSetPixel st x y c = (st, 0) := by
        rw [heq, if_neg (fun hne => hne hch)]
      rw [h1]
      show oledSetPixel st x y c = (st, 0)
      exact h1
    · have h1 : oledSetPixel st x y c =
          (oledWriteDataBlock (oledSetPosition st x (Int.fdiv y 8))
            [pixelNewByte (st.ucScreen (Int.fdiv y 8 * 128 + x)) (y % 8).toNat c], 0) := by
        rw [heq, if_pos hch]
      rw [h1]
      show oledSetPixel (oledWriteDataBlock (oledSetPosition st x (Int.fdiv y 8))
          [pixelNewByte (st.ucScreen (Int.fdiv y 8 * 128 + x)) (y % 8).toNat c]) x y c
        = (oledWriteDataBlock (oledSetPosition st x (Int.fdiv y 8))
            [pixelNewByte (st.ucScreen (Int.fdiv y 8 * 128 + x)) (y % 8).toNat c], 0)
      have hfW : (oledWriteDataBlock (oledSetPosition st x (Int.fdiv y 8))
          [pixelNewByte (st.ucScreen (Int.fdiv y 8 * 128 + x)) (y % 8).toNat c]).file_i2c
          = true := by
        rw [oledWriteDataBlock_file, oledSetPosition_file]
        exact hf
      have hscr : (oledWriteDataBlock (oledSetPosition st x (Int.fdiv y 8))
          [pixelNewByte (st.ucScreen (Int.fdiv y 8 * 128 + x)) (y % 8).toNat c]).ucScreen
            (Int.fdiv y 8 * 128 + x)
          = pixelNewByte (st.ucScreen (Int.fdiv y 8 * 128 + x)) (y % 8).toNat c := by
        rw [oledWriteDataBlock_screen, oledSetPosition_screen, oledSetPosition_offset,
          writeBytes_singleton]
        exact if_pos rfl
      rw [oledSetPixel_eq _ x y c hfW hin, hscr,
        if_neg (fun hne => hne (pixelNewByte_match _ _ _
          (pixelNewByte_lt _ _ _ hbyte hk) hk (pixelNewByte_testBit _ _ _ hbyte hk)))]

theorem c4_noop_idempotence_witness :
    ((Nat.testBit (exReady.ucScreen (Int.fdiv 0 8 * 128 + 0)) ((0 : Int) % 8).toNat
        = decide (1 % 256 ≠ 0) → oledSetPixel exReady 0 0 1 = (exReady, 0))
    ∧ oledSetPixel (oledSetPixel exReady 0 0 1).1 0 0 1
        = ((oledSetPixel exReady 0 0 1).1, 0)) :=
  c4_noop_idempotence exReady 0 0 1 rfl (by norm_num) (by norm_num) (by norm_num)
    (by norm_num) (by decide)

/-! ### Fill lemmas -/

/-- The four transmissions of one page of `oledFill`: position to column 0 of
page `y`, then one 129-byte data burst of the repeated fill byte. -/
def fillMsgs (v : Nat) (y : Nat) : List (List Nat) :=
  posMsgs 0 (y : Int) ++ [64 :: List.replicate 128 (v % 256)]

lemma fillStep_file (v : Nat) (s : OledState) (y : Nat) :
    (fillStep v s y).file_i2c = s.file_i2c := rfl

lemma fillStep_font (v : Nat) (s : OledState) (y : Nat) :
    (fillStep v s y).ucFont = s.ucFont := rfl

lemma fillStep_tx (v : Nat) (s : OledState) (y : Nat) :
    (fillStep v s y).tx = s.tx ++ fillMsgs v y := by
  unfold fillStep fillMsgs
  rw [oledWriteDataBlock_tx, oledSetPosition_tx, List.append_assoc]

lemma fillStep_screen (v : Nat) (s : OledState) (y : Nat) (t : Int) :
    (fillStep v s y).ucScreen t =
      if (y : Int) * 128 ≤ t ∧ t < (y : Int) * 128 + 128 then v % 256
      else s.ucScreen t := by
  unfold fillStep
  rw [oledWriteDataBlock_screen, oledSetPosition_screen, oledSetPosition_offset,
    writeBytes_replicate]
  by_cases h : (y : Int) * 128 ≤ t ∧ t < (y : Int) * 128 + 128
  · rw [if_pos (by push_cast; omega), if_pos h]
  · rw [if_neg (by push_cast; omega), if_neg h]

lemma fill_loop (v : Nat) (st : OledState) : ∀ n, n ≤ 8 →
    ((List.range n).foldl (fillStep v) st).file_i2c = st.file_i2c
  ∧ ((List.range n).foldl (fillStep v) st).ucFont = st.ucFont
  ∧ ((List.range n).foldl (fillStep v) st).tx = st.tx ++ (List.range n).flatMap (fillMsgs v)
  ∧ ∀ t : Int, ((List.range n).foldl (fillStep v) st).ucScreen t
      = if 0 ≤ t ∧ t < 128 * (n : Int) then v % 256 else st.ucScreen t := by
  intro n
  induction n with
  | zero =>
    intro _
    refine ⟨rfl, rfl, by simp, fun t => ?_⟩
    simp only [List.range_zero, List.foldl_nil]
    rw [if_neg (by push_cast; omega)]
  | succ m ih =>
    intro hm
    obtain ⟨ihf, ihfont, ihtx, ihscr⟩ := ih (by omega)
    rw [List.range_succ, List.foldl_append, List.foldl_cons, List.foldl_nil]
    refine ⟨?_, ?_, ?_, fun t => ?_⟩
    · rw [fillStep_file]
      exact ihf
    · rw [fillStep_font]
      exact ihfont
    · rw [fillStep_tx, ihtx]
      simp [List.flatMap_append, List.append_assoc]
    · rw [fillStep_screen, ihscr]
      by_cases h1 : (m : Int) * 128 ≤ t ∧ t < (m : Int) * 128 + 128
      · rw [if_pos h1, if_pos (by push_cast; push_cast at h1; omega)]
      · rw [if_neg h1]
        by_cases h2 : 0 ≤ t ∧ t < 128 * (m : Int)
        · rw [if_pos h2, if_pos (by push_cast; push_cast at h1 h2; omega)]
        · rw [if_neg h2, if_neg (by push_cast; push_cast at h1 h2; omega)]

/-- C5: when initialized, `oledFill(v)` returns success and every cache byte
in [0, 1023] equals `v`, the bus transcript having grown, for each of the 8
pages, by the three cursor commands for column 0 of that page followed by a
128-byte data block of the repeated value; when not initialized it fails and
changes nothing; and `fill(0xFF)` followed by `fill(0x00)` leaves every cache
byte equal to `0x00`. -/
theorem c5_fill (st : OledState) (v : Nat) (hv : v < 256) :
    (st.file_i2c = false → oledFill st v = (st, -1))
  ∧ (st.file_i2c = true →
      (oledFill st v).2 = 0
      ∧ (∀ t : Int, 0 ≤ t → t ≤ 1023 → (oledFill st v).1.ucScreen t = v)
      ∧ (oledFill st v).1.tx = st.tx ++ (List.range 8).flatMap (fillMsgs v)
      ∧ (∀ t : Int, 0 ≤ t → t ≤ 1023 →
          (oledFill (oledFill st 255).1 0).1.ucScreen t = 0)) := by
  constructor
  · intro h
    unfold oledFill
    rw [if_pos h]
  · intro hf
    have hnot : ¬ (st.file_i2c = false) := by
      rw [hf]
      exact fun h => Bool.noConfusion h
    have hOF : oledFill st v = ((List.range 8).foldl (fillStep v) st, 0) := by
      unfold oledFill
      rw [if_neg hnot]
    have hl := fill_loop v st 8 (le_refl 8)
    refine ⟨by rw [hOF], fun t ht0 ht1 => ?_, ?_, fun t ht0 ht1 => ?_⟩
    · rw [hOF]
      rw [hl.2.2.2 t, if_pos (by push_cast; omega)]
      exact Nat.mod_eq_of_lt hv
    · rw [hOF]
      exact hl.2.2.1
    · have hOF255 : oledFill st 255 = ((List.range 8).foldl (fillStep 255) st, 0) := by
        unfold oledFill
        rw [if_neg hnot]
      have hl255 := fill_loop 255 st 8 (le_refl 8)
      have hfA : ((List.range 8).foldl (fillStep 255) st).file_i2c = true := by
        rw [hl255.1]
        exact hf
      have hnotA : ¬ (((List.range 8).foldl (fillStep 255) st).file_i2c = false) := by
        rw [hfA]
        exact fun h => Bool.noConfusion h
      rw [hOF255]
      have hOF0 : oledFill ((List.range 8).foldl (fillStep 255) st) 0
          = ((List.range 8).foldl (fillStep 0) ((List.range 8).foldl (fillStep 255) st),
             0) := by
        unfold oledFill
        rw [if_neg hnotA]
      rw [hOF0]
      have hl0 := fill_loop 0 ((List.range 8).foldl (fillStep 255) st) 8 (le_refl 8)
      rw [hl0.2.2.2 t, if_pos (by push_cast; omega)]

theorem c5_fill_witness :
    (exReady.file_i2c = false → oledFill exReady 255 = (exReady, -1))
  ∧ (exReady.file_i2c = true →
      (oledFill exReady 255).2 = 0
      ∧ (∀ t : Int, 0 ≤ t → t ≤ 1023 → (oledFill exReady 255).1.ucScreen t = 255)
      ∧ (oledFill exReady 255).1.tx = exReady.tx ++ (List.range 8).flatMap (fillMsgs 255)
      ∧ (∀ t : Int, 0 ≤ t → t ≤ 1023 →
          (oledFill (oledFill exReady 255).1 0).1.ucScreen t = 0)) :=
  c5_fill exReady 255 (by norm_num)

/-! ### writeString lemmas -/

/-- Number of data bursts (transmissions introduced by the `0x40` data byte)
in a transcript; every glyph of the small font contributes one, every glyph
of the large font three. -/
def dataBursts (l : List (List Nat)) : Nat :=
  (l.filter (fun m => m.head? == some 64)).length

lemma dataBursts_append (a b : List (List Nat)) :
    dataBursts (a ++ b) = dataBursts a + dataBursts b := by
  simp [dataBursts, List.filter_append]

lemma dataBursts_posMsgs (x y : Int) : dataBursts (posMsgs x y) = 0 := rfl

lemma dataBursts_setPos (s : OledState) (x y : Int) :
    dataBursts (oledSetPosition s x y).tx = dataBursts s.tx := by
  rw [oledSetPosition_tx, dataBursts_append, dataBursts_posMsgs]
  omega

lemma dataBursts_dataBlock (s : OledState) (buf : List Nat) :
    dataBursts (oledWriteDataBlock s buf).tx = dataBursts s.tx + 1 := by
  rw [oledWriteDataBlock_tx, dataBursts_append]
  rfl

lemma dataBursts_smallChar (msg : List Nat) (s : OledState) (i : Nat) :
    dataBursts (smallChar msg s i).tx = dataBursts s.tx + 1 := by
  unfold smallChar
  rw [dataBursts_dataBlock]

lemma dataBursts_largeChar (x y : Int) (msg : List Nat) (s : OledState) (i : Nat) :
    dataBursts (largeChar x y msg s i).tx = dataBursts s.tx + 3 := by
  unfold largeChar
  rw [dataBursts_dataBlock, dataBursts_setPos, dataBursts_dataBlock, dataBursts_setPos,
    dataBursts_dataBlock, dataBursts_setPos]

lemma smallLoop_bursts (msg : List Nat) (st : OledState) : ∀ n,
    dataBursts ((List.range n).foldl (smallChar msg) st).tx = dataBursts st.tx + n := by
  intro n
  induction n with
  | zero => rfl
  | succ m ih =>
    rw [List.range_succ, List.foldl_append, List.foldl_cons, List.foldl_nil,
      dataBursts_smallChar, ih]
    omega

lemma largeLoop_bursts (x y : Int) (msg : List Nat) (st : OledState) : ∀ n,
    dataBursts ((List.range n).foldl (largeChar x y msg) st).tx
      = dataBursts st.tx + 3 * n := by
  intro n
  induction n with
  | zero => rfl
  | succ m ih =>
    rw [List.range_succ, List.foldl_append, List.foldl_cons, List.foldl_nil,
      dataBursts_largeChar, ih]
    omega

lemma clampLen_eq_min (cap len x : Int) (hlen : 0 ≤ len) :
    clampLen cap len x = min len (cap - x) := by
  unfold clampLen
  split_ifs with h <;> omega

/-- C6: for every initialized call, `oledWriteString` returns the failure
code exactly when `min(len, 16 - x)` (small font) or `min(len, 8 - x)`
(large font) is negative; on success it emits exactly that many glyphs —
one data burst per small glyph, three per large glyph — so overlong text is
silently truncated to the per-row capacity. -/
theorem c6_truncation (st : OledState) (x y : Int) (msg : List Nat) (bLarge : Bool)
    (hf : st.file_i2c = true) :
    ((oledWriteString st x y msg bLarge).2 = -1 ↔
      min (msg.length : Int) ((if bLarge = true then 8 else 16) - x) < 0)
  ∧ ((oledWriteString st x y msg bLarge).2 = 0 →
      dataBursts (oledWriteString st x y msg bLarge).1.tx
        = dataBursts st.tx
          + (if bLarge = true then 3 else 1)
            * (min (msg.length : Int) ((if bLarge = true then 8 else 16) - x)).toNat) := by
  have hnot : ¬ (st.file_i2c = false) := by
    rw [hf]
    exact fun h => Bool.noConfusion h
  have hlen : (0 : Int) ≤ (msg.length : Int) := by positivity
  cases bLarge
  · have hcl : clampLen 16 (msg.length : Int) x = min (msg.length : Int) (16 - x) :=
      clampLen_eq_min _ _ _ hlen
    unfold oledWriteString
    rw [if_neg hnot, if_neg (fun h => Bool.noConfusion h), hcl]
    by_cases hneg : min (msg.length : Int) (16 - x) < 0
    · rw [if_pos hneg]
      exact ⟨⟨fun _ => by simpa using hneg, fun _ => rfl⟩,
        fun h0 => absurd h0 (by norm_num)⟩
    · rw [if_neg hneg]
      refine ⟨⟨fun h => absurd h (by norm_num), fun h => absurd h (by simpa using hneg)⟩,
        fun _ => ?_⟩
      rw [smallLoop_bursts, dataBursts_setPos]
      simp
  · have hcl : clampLen 8 (msg.length : Int) x = min (msg.length : Int) (8 - x) :=
      clampLen_eq_min _ _ _ hlen
    unfold oledWriteString
    rw [if_neg hnot, if_pos rfl, hcl]
    by_cases hneg : min (msg.length : Int) (8 - x) < 0
    · rw [if_pos hneg]
      exact ⟨⟨fun _ => by simpa using hneg, fun _ => rfl⟩,
        fun h0 => absurd h0 (by norm_num)⟩
    · rw [if_neg hneg]
      refine ⟨⟨fun h => absurd h (by norm_num), fun h => absurd h (by simpa using hneg)⟩,
        fun _ => ?_⟩
      rw [largeLoop_bursts]
      simp

theorem c6_truncation_witness :
    (((oledWriteString exReady 0 0 [65, 66] false).2 = -1 ↔
      min ((([65, 66] : List Nat).length : Int)) ((if false = true then 8 else 16) - 0) < 0)
  ∧ ((oledWriteString exReady 0 0 [65, 66] false).2 = 0 →
      dataBursts (oledWriteString exReady 0 0 [65, 66] false).1.tx
        = dataBursts exReady.tx
          + (if false = true then 3 else 1)
            * (min ((([65, 66] : List Nat).length : Int))
                ((if false = true then 8 else 16) - 0)).toNat)) :=
  c6_truncation exReady 0 0 [65, 66] false rfl

/-! ### Cache-write bounds -/

/-- Membership in the ghost log of one `memcpy`: the logged indices are the
interval starting at the write offset. -/
lemma mem_offsetRange (n : Nat) (off t : Int) :
    t ∈ (List.range n).map (fun k : Nat => off + (k : Int)) ↔
      off ≤ t ∧ t < off + (n : Int) := by
  induction n with
  | zero => simp
  | succ m ih =>
    rw [List.range_succ, List.map_append, List.mem_append, ih]
    simp only [List.map_cons, List.map_nil, List.mem_singleton]
    push_cast
    omega

lemma smallChar_offset (msg : List Nat) (s : OledState) (i : Nat) :
    (smallChar msg s i).iScreenOffset = s.iScreenOffset + 8 := by
  unfold smallChar
  rw [oledWriteDataBlock_offset, fontBytes_length]
  norm_num

lemma smallChar_cw (msg : List Nat) (s : OledState) (i : Nat) :
    (smallChar msg s i).cacheWrites
      = s.cacheWrites ++ (List.range 8).map (fun k : Nat => s.iScreenOffset + (k : Int)) := by
  unfold smallChar
  rw [oledWriteDataBlock_cw, fontBytes_length]

lemma smallLoop_cw (msg : List Nat) (st : OledState) : ∀ n,
    ((List.range n).foldl (smallChar msg) st).iScreenOffset
        = st.iScreenOffset + 8 * (n : Int)
  ∧ ∀ t ∈ ((List.range n).foldl (smallChar msg) st).cacheWrites,
      t ∈ st.cacheWrites ∨ (st.iScreenOffset ≤ t ∧ t < st.iScreenOffset + 8 * (n : Int)) := by
  intro n
  induction n with
  | zero =>
    constructor
    · simp
    · intro t ht
      exact Or.inl ht
  | succ m ih =>
    obtain ⟨iho, ihm⟩ := ih
    rw [List.range_succ, List.foldl_append, List.foldl_cons, List.foldl_nil]
    constructor
    · rw [smallChar_offset, iho]
      push_cast
      ring
    · intro t ht
      rw [smallChar_cw] at ht
      rcases List.mem_append.mp ht with h | h
      · rcases ihm t h with h2 | h2
        · exact Or.inl h2
        · right
          push_cast
          push_cast at h2
          omega
      · rw [mem_offsetRange] at h
        right
        rw [iho] at h
        push_cast at h ⊢
        omega

lemma largeChar_cw_bound (x y : Int) (msg : List Nat) (s : OledState) (i : Nat)
    (t : Int) (ht : t ∈ (largeChar x y msg s i).cacheWrites) :
    t ∈ s.cacheWrites ∨ ∃ p : Int, (p = y ∨ p = y + 1 ∨ p = y + 2) ∧
      p * 128 + (x + 16 * (i : Int)) ≤ t ∧ t < p * 128 + (x + 16 * (i : Int)) + 16 := by
  unfold largeChar at ht
  simp only [oledWriteDataBlock_cw, oledSetPosition_cw, oledSetPosition_offset,
    fontBytes_length, List.mem_append, mem_offsetRange] at ht
  rcases ht with ((h | h) | h) | h
  · exact Or.inl h
  · exact Or.inr ⟨y, Or.inl rfl, h⟩
  · exact Or.inr ⟨y + 1, Or.inr (Or.inl rfl), h⟩
  · exact Or.inr ⟨y + 2, Or.inr (Or.inr rfl), h⟩

lemma largeLoop_cw (xx y : Int) (msg : List Nat) (st : OledState)
    (hxx : 0 ≤ xx) (hy0 : 0 ≤ y) (hy : y ≤ 5) : ∀ n : Nat, xx + 16 * (n : Int) ≤ 128 →
    ∀ t ∈ ((List.range n).foldl (largeChar xx y msg) st).cacheWrites,
      t ∈ st.cacheWrites ∨ (0 ≤ t ∧ t ≤ 1023) := by
  intro n
  induction n with
  | zero =>
    intro _ t ht
    exact Or.inl ht
  | succ m ih =>
    intro hcol t ht
    rw [List.range_succ, List.foldl_append, List.foldl_cons, List.foldl_nil] at ht
    rcases largeChar_cw_bound xx y msg _ m t ht with h | h
    · exact ih (by push_cast; push_cast at hcol; omega) t h
    · obtain ⟨p, hp, hlo, hhi⟩ := h
      right
      push_cast at hcol
      rcases hp with rfl | rfl | rfl <;> constructor <;> omega

/-- C9: for every initialized `oledWriteString` call with `0 ≤ x`, every
cache index targeted by the mirroring `memcpy` of `oledWriteDataBlock` stays
within [0, 1023] provided the last page written does not exceed 7 — i.e.
`0 ≤ y ≤ 7` for the small font but only `0 ≤ y ≤ 5` for the large font,
which writes the three consecutive pages `y`, `y+1`, `y+2`. -/
theorem c9_cache_bounds (st : OledState) (x y : Int) (msg : List Nat) (bLarge : Bool)
    (t : Int) (hf : st.file_i2c = true) (hcw : st.cacheWrites = [])
    (hx : 0 ≤ x) (hy0 : 0 ≤ y)
    (hyS : bLarge = false → y ≤ 7) (hyL : bLarge = true → y ≤ 5)
    (ht : t ∈ (oledWriteString st x y msg bLarge).1.cacheWrites) :
    0 ≤ t ∧ t ≤ 1023 := by
  have hnot : ¬ (st.file_i2c = false) := by
    rw [hf]
    exact fun h => Bool.noConfusion h
  have hlen : (0 : Int) ≤ (msg.length : Int) := by positivity
  cases bLarge
  · unfold oledWriteString at ht
    rw [if_neg hnot, if_neg (fun h => Bool.noConfusion h)] at ht
    by_cases hneg : clampLen 16 (msg.length : Int) x < 0
    · rw [if_pos hneg] at ht
      simp only [oledSetPosition_cw, hcw] at ht
      exact absurd ht (List.not_mem_nil t)
    · rw [if_neg hneg] at ht
      have hloop := (smallLoop_cw msg (oledSetPosition st x y)
        ((clampLen 16 (msg.length : Int) x).toNat)).2 t ht
      rcases hloop with h | h
      · rw [oledSetPosition_cw, hcw] at h
        exact absurd h (List.not_mem_nil t)
      · rw [oledSetPosition_offset] at h
        have hclamp : clampLen 16 (msg.length : Int) x ≤ 16 - x := by
          unfold clampLen
          split_ifs <;> omega
        have hN : (((clampLen 16 (msg.length : Int) x).toNat : Int))
            = clampLen 16 (msg.length : Int) x := Int.toNat_of_nonneg (by omega)
        rw [hN] at h
        have hy7 := hyS rfl
        omega
  · unfold oledWriteString at ht
    rw [if_neg hnot, if_pos rfl] at ht
    by_cases hneg : clampLen 8 (msg.length : Int) x < 0
    · rw [if_pos hneg] at ht
      simp only [hcw] at ht
      exact absurd ht (List.not_mem_nil t)
    · rw [if_neg hneg] at ht
      have hclamp : clampLen 8 (msg.length : Int) x ≤ 8 - x := by
        unfold clampLen
        split_ifs <;> omega
      have hN : (((clampLen 8 (msg.length : Int) x).toNat : Int))
          = clampLen 8 (msg.length : Int) x := Int.toNat_of_nonneg (by omega)
      have hres := largeLoop_cw (x * 16) y msg st (by omega) hy0 (hyL rfl)
        ((clampLen 8 (msg.length : Int) x).toNat) (by rw [hN]; omega) t ht
      rcases hres with h | h
      · rw [hcw] at h
        exact absurd h (List.not_mem_nil t)
      · exact h

theorem c9_cache_bounds_witness : (0 : Int) ≤ 0 ∧ (0 : Int) ≤ 1023 :=
  c9_cache_bounds exReady 0 0 [65] false 0 rfl rfl (by norm_num) (by norm_num)
    (fun _ => by norm_num) (fun h => Bool.noConfusion h) (by decide)
